import Mathlib

/-!
Verification of the BBone-to-XFL flattening core.

The development shallowly embeds the two scripts of the repository,
`bbone_to_xfl.py` (the converter over flat per-frame child lists) and
`bbone_to_xfl_symbols.py` (the recursive flattener with shared-animation
substitution).  Python double-precision numbers are modelled over `ℚ`:
every claim under study concerns which arithmetic expression the code
computes, not floating-point rounding, and the embedded definitions mirror
the expressions of the source verbatim.  Python dicts are modelled as
association lists with Python-dict update semantics (first occurrence of a
key is updated in place, new keys are appended), and JSON values that may
fail Python's `float()` coercion are modelled by the type `JVal`, whose
constructor `JVal.bad` stands for any value on which `float()` raises.
-/

namespace BBoneXfl

/-- Affine 2×3 matrix `{a, b, c, d, tx, ty}`, the tuple shape of
`mat()` in `bbone_to_xfl_symbols.py` and of the matrix dicts of
`bbone_to_xfl.py`. -/
structure Mat where
  a : ℚ
  b : ℚ
  c : ℚ
  d : ℚ
  tx : ℚ
  ty : ℚ
deriving DecidableEq

/-- The identity matrix, `mat()` with all defaults
(`bbone_to_xfl_symbols.py` line 118). -/
def matId : Mat := ⟨1, 0, 0, 1, 0, 0⟩

/-- Matrix composition `mul(a, b)` from `bbone_to_xfl_symbols.py`
lines 114–117, with the tuple indices 0..5 spelled `a b c d tx ty`. -/
def mul (p l : Mat) : Mat :=
  ⟨p.a * l.a + p.c * l.b, p.b * l.a + p.d * l.b,
   p.a * l.c + p.c * l.d, p.b * l.c + p.d * l.d,
   p.a * l.tx + p.c * l.ty + p.tx, p.b * l.tx + p.d * l.ty + p.ty⟩

/-- A node of the animation tree (`Node` of the data model): dict-shaped in
the source, with `name`, `matrix`, `color`, `children`,
`references_shared_animation`.  Numeric dict fields are association lists
over `ℚ` (missing keys model missing JSON fields). -/
inductive Node : Type where
  | mk : String → List (String × ℚ) → List (String × ℚ) → List Node → Option String → Node

def Node.name : Node → String
  | .mk n _ _ _ _ => n

def Node.matrix : Node → List (String × ℚ)
  | .mk _ m _ _ _ => m

def Node.color : Node → List (String × ℚ)
  | .mk _ _ c _ _ => c

def Node.children : Node → List Node
  | .mk _ _ _ ch _ => ch

def Node.sharedRef : Node → Option String
  | .mk _ _ _ _ r => r

/-- A frame-like record: `{"children": [...]}`. -/
structure Frame where
  children : List Node

/-- The shared-animation table `shared`, a dict from identifier to a list of
frame-like records. -/
abbrev Shared := List (String × List Frame)

/-- `M.get(k, d)` on a numeric dict followed by `float(...)`, for dicts whose
values are numbers (the well-formed case; malformed values are treated by
the `JVal` layer below). -/
def getQ (m : List (String × ℚ)) (k : String) (d : ℚ) : ℚ :=
  (List.lookup k m).getD d

/-- The local matrix extracted by `compose_list`
(`bbone_to_xfl_symbols.py` lines 418–421):
`a = float(M.get("a",1))`, …, `ty = float(M.get("ty",0))`. -/
def localMat (bone : Node) : Mat :=
  ⟨getQ bone.matrix "a" 1, getQ bone.matrix "b" 0, getQ bone.matrix "c" 0,
   getQ bone.matrix "d" 1, getQ bone.matrix "tx" 0, getQ bone.matrix "ty" 0⟩

/-- `float((bone.get("color") or {}).get("alphaMultiplier", 1.0))`
(`bbone_to_xfl_symbols.py` line 423). -/
def alphaMult (bone : Node) : ℚ :=
  getQ bone.color "alphaMultiplier" 1

/-- Effective children of a node at outer frame `fi`
(`bbone_to_xfl_symbols.py` lines 426–430, identically lines 147–152):
when the node carries a truthy `references_shared_animation` whose table
entry is a non-empty list, the children of entry `fi mod len` are
substituted; otherwise the node's own children are used.  The Python
truthiness test on the reference makes an empty-string reference behave
like no reference. -/
def effChildren (shared : Shared) (bone : Node) (fi : ℕ) : List Node :=
  match bone.sharedRef with
  | none => bone.children
  | some r =>
    if r = "" then bone.children
    else
      match List.lookup r shared with
      | none => bone.children
      | some sa =>
        if sa.isEmpty then bone.children
        else (sa.getD (fi % sa.length) ⟨[]⟩).children

/-- One record of the flat per-frame output of `compose_list`:
`(name, world, alpha)`. -/
structure FlatInst where
  name : String
  world : Mat
  alpha : ℚ
deriving DecidableEq

/-- `compose_list(bone, pw, pa, fi)` from `bbone_to_xfl_symbols.py`
lines 416–433.  The extra `fuel` argument bounds the recursion depth: the
Python recursion is likewise depth-limited, and a self-referential shared
table makes it diverge; every theorem below holds for every fuel value. -/
def compose_list (shared : Shared) : ℕ → Node → Mat → ℚ → ℕ → List FlatInst
  | 0, _, _, _, _ => []
  | fuel + 1, bone, pw, pa, fi =>
    let world := mul pw (localMat bone)
    let alpha := alphaMult bone * pa
    ⟨bone.name, world, alpha⟩ ::
      ((effChildren shared bone fi).map fun ch =>
        compose_list shared fuel ch world alpha fi).flatten

/-- The per-frame flattening loop of `main`
(`bbone_to_xfl_symbols.py` lines 437–438): each root node of the frame is
composed with parent world `mat()` (the identity) and parent alpha `1.0`. -/
def flattenFrame (shared : Shared) (fuel : ℕ) (fr : Frame) (fi : ℕ) : List FlatInst :=
  (fr.children.map fun b => compose_list shared fuel b matId 1 fi).flatten

/-- Boolean test that `p` is an initial segment of `s` (on characters). -/
def chPre : List Char → List Char → Bool
  | [], _ => true
  | _ :: _, [] => false
  | a :: as, b :: bs => a == b && chPre as bs

/-- Boolean substring containment of character lists: Python's `p in s`. -/
def chSub (p : List Char) : List Char → Bool
  | [] => chPre p []
  | s@(_ :: rest) => chPre p s || chSub p rest

/-- Python `sub in s` on strings. -/
def hasSubstr (s sub : String) : Bool := chSub sub.data s.data

/-- Python `s.strip()` (whitespace trim at both ends), character-wise. -/
def pyStrip (s : String) : String :=
  String.mk (((s.data.dropWhile Char.isWhitespace).reverse.dropWhile
    Char.isWhitespace).reverse)

/-- Python `s.lower()`, character-wise. -/
def pyLower (s : String) : String := String.mk (s.data.map Char.toLower)

/-- Python `s.replace(a, b)` for one-character pattern and replacement
(the only shape the source uses), character-wise. -/
def chReplace (a b : Char) (s : String) : String :=
  String.mk (s.data.map fun c => if c = a then b else c)

/-- Python `s.endswith(suf)`. -/
def chEndsWith (s suf : String) : Bool := chPre suf.data.reverse s.data.reverse

/-- Python `s[:-n]` for `n ≤ len(s)`: drop the last `n` characters. -/
def chDropRight (s : String) (n : ℕ) : String :=
  String.mk (s.data.take (s.data.length - n))

/-- `sanitize(s)` (`bbone_to_xfl_symbols.py` line 113): replace every `.`
with `_`. -/
def sanitize (s : String) : String := chReplace '.' '_' s

/-- The recursive `walk` of `dfs_draw_order`
(`bbone_to_xfl_symbols.py` lines 143–153): append the sanitized name when
non-empty, then recurse into the effective children (same shared-animation
substitution as the flattener).  Fuel as in `compose_list`. -/
def walkOrder (shared : Shared) : ℕ → Node → ℕ → List String
  | 0, _, _ => []
  | fuel + 1, node, fi =>
    (if sanitize node.name = "" then [] else [sanitize node.name]) ++
      ((effChildren shared node fi).map fun ch => walkOrder shared fuel ch fi).flatten

/-- `dfs_draw_order(frames, shared)` (`bbone_to_xfl_symbols.py`
lines 140–155): walk the roots of frame 0 at `fi = 0`; empty frame list
gives the empty order. -/
def dfs_draw_order (shared : Shared) (fuel : ℕ) (frames : List Frame) : List String :=
  match frames with
  | [] => []
  | f0 :: _ => (f0.children.map fun b => walkOrder shared fuel b 0).flatten

/-- The draw-order post-processing of `main`
(`bbone_to_xfl_symbols.py` lines 444–446): keep the sanitized dfs names
that have a layer, then append the layer keys never visited in the dfs
order. -/
def bottomToTop (dfs : List String) (keys : List String) : List String :=
  (dfs.map sanitize).filter (fun n => decide (n ∈ keys)) ++
    keys.filter (fun n => decide (n ∉ dfs.map sanitize))

/-- A JSON scalar as seen by Python's `float()` coercion: `num q` is a value
`float()` accepts (numbers, numeric strings), and `bad` abstracts any value
on which `float()` raises (`None`, non-numeric strings, containers). -/
inductive JVal : Type where
  | num : ℚ → JVal
  | bad : JVal
deriving DecidableEq

/-- Python `float(v)` as a fallible computation: raising is modelled by
`Except.error`. -/
def pyFloatE : JVal → Except String ℚ
  | .num q => .ok q
  | .bad => .error "ValueError"

/-- `_float(v, d)` from `bbone_to_xfl.py` lines 50–52:
`try: return float(v); except: return float(d)`. -/
def _float (v : JVal) (d : ℚ) : ℚ :=
  match pyFloatE v with
  | .ok q => q
  | .error _ => d

/-- `compose_instance_matrix(frame_m, plist_rec)` from `bbone_to_xfl.py`
lines 65–81.  Every field is read as `_float(dict.get(key, default))` with
the `_float` fallback `d = 0.0`, then
`M' = M · T(ox, oy) · S(sx, sy)` is assembled componentwise. -/
def compose_instance_matrix (frame_m plist_rec : List (String × JVal)) : Mat :=
  let a := _float ((List.lookup "a" frame_m).getD (.num 1)) 0
  let b := _float ((List.lookup "b" frame_m).getD (.num 0)) 0
  let c := _float ((List.lookup "c" frame_m).getD (.num 0)) 0
  let d := _float ((List.lookup "d" frame_m).getD (.num 1)) 0
  let tx := _float ((List.lookup "tx" frame_m).getD (.num 0)) 0
  let ty := _float ((List.lookup "ty" frame_m).getD (.num 0)) 0
  let ox := _float ((List.lookup "origin_x" plist_rec).getD (.num 0)) 0
  let oy := _float ((List.lookup "origin_y" plist_rec).getD (.num 0)) 0
  let sx := _float ((List.lookup "scale_x" plist_rec).getD (.num 1)) 0
  let sy := _float ((List.lookup "scale_y" plist_rec).getD (.num 1)) 0
  ⟨a * sx, b * sx, c * sy, d * sy, a * ox + c * oy + tx, b * ox + d * oy + ty⟩

/-- The global-scale application of `_sprite_symbol`
(`bbone_to_xfl.py` lines 203–212): when `s != 1.0`, all six components of
the composed matrix are multiplied by `s`. -/
def applyGlobalScale (m : Mat) (s : ℚ) : Mat :=
  if s ≠ 1 then ⟨m.a * s, m.b * s, m.c * s, m.d * s, m.tx * s, m.ty * s⟩ else m

/-- `plist.get(name, {})` (`bbone_to_xfl.py` line 189). -/
def pinfoFor (plist : List (String × List (String × JVal))) (name : String) :
    List (String × JVal) :=
  (List.lookup name plist).getD []

/-- The full per-instance matrix written by `_sprite_symbol`
(`bbone_to_xfl.py` lines 201–212): origin/scale composition first, then the
global scale. -/
def instanceMatrix (frame_m : List (String × JVal))
    (plist : List (String × List (String × JVal))) (name : String) (g : ℚ) : Mat :=
  applyGlobalScale (compose_instance_matrix frame_m (pinfoFor plist name)) g

/-- The local-matrix extraction of `compose_list`
(`bbone_to_xfl_symbols.py` lines 418–421) over raw JSON values: the source
calls `float(M.get(key, default))` directly, so a malformed field raises. -/
def localMatrixE (M : List (String × JVal)) : Except String Mat := do
  let a ← pyFloatE ((List.lookup "a" M).getD (.num 1))
  let b ← pyFloatE ((List.lookup "b" M).getD (.num 0))
  let c ← pyFloatE ((List.lookup "c" M).getD (.num 0))
  let d ← pyFloatE ((List.lookup "d" M).getD (.num 1))
  let tx ← pyFloatE ((List.lookup "tx" M).getD (.num 0))
  let ty ← pyFloatE ((List.lookup "ty" M).getD (.num 0))
  return ⟨a, b, c, d, tx, ty⟩

/-- The alpha extraction of `compose_list` (`bbone_to_xfl_symbols.py`
line 423) over raw JSON values:
`float((bone.get("color") or {}).get("alphaMultiplier", 1.0))`. -/
def alphaME (color : List (String × JVal)) : Except String ℚ :=
  pyFloatE ((List.lookup "alphaMultiplier" color).getD (.num 1))

/-- Characters after the last occurrence of `sep`; this is Python's
`s.split(sep)[-1]` for a one-character separator (and equals `s` when the
separator does not occur, which also covers the `if sep in n` guard of the
source). -/
def afterLastChar (sep : Char) (cs : List Char) : List Char :=
  cs.foldl (fun acc c => if c = sep then [] else acc.concat c) []

/-- One `n = n.split(sep)[-1]` step of `_norm_name` as a string function. -/
def lastSeg (sep : Char) (s : String) : String :=
  String.mk (afterLastChar sep s.data)

/-- The extension strip of `_norm_name` (`bbone_to_xfl.py` line 60):
`if n.lower().endswith(".png"): n = n[:-4]`. -/
def stripPngExt (s : String) : String :=
  if chEndsWith (pyLower s) ".png" then chDropRight s 4 else s

/-- `_norm_name(n)` from `bbone_to_xfl.py` lines 55–61: empty guard, trim,
last `/`-segment, last `\`-segment, strip one trailing case-insensitive
`.png`. -/
def norm_name (n : String) : String :=
  if n = "" then ""
  else stripPngExt (lastSeg '\\' (lastSeg '/' (pyStrip n)))

/-- Characters after the last path separator (`/` or `\`), the spec's
"segment after the last `/` or `\`"; used to compare `_norm_name` with the
specification's description. -/
def afterLastPathSep (cs : List Char) : List Char :=
  cs.foldl (fun acc c => if c = '/' ∨ c = '\\' then [] else acc.concat c) []

/-- Modelled from the spec: normalization per §4.2 — trim surrounding
whitespace, strip the path-style prefix before the last `/` or `\`, strip
one case-insensitive trailing `.png` extension.  Defined for refinement
comparison with `norm_name`. -/
def normSpecName (n : String) : String :=
  if n = "" then ""
  else stripPngExt (String.mk (afterLastPathSep (pyStrip n).data))

/-- `aliases.get(n, n)` (`bbone_to_xfl.py` line 139). -/
def aliasGet (aliases : List (String × String)) (n : String) : String :=
  (List.lookup n aliases).getD n

/-- Name resolution of `_sprite_symbol` (`bbone_to_xfl.py` lines 135–139):
normalize, then apply the alias map. -/
def resolveName (aliases : List (String × String)) (raw : String) : String :=
  aliasGet aliases (norm_name raw)

/-- One child record of a converter frame (`bbone_to_xfl.py`): a dict with
`name` and `matrix` (the matrix over raw JSON values). -/
structure ChildRec where
  name : String
  matrix : List (String × JVal)
deriving DecidableEq

/-- A converter frame is its `children` list (`f.get("children") or []`). -/
abbrev CFrame := List ChildRec

/-- Python-dict assignment `m[k] = v` on an association list with unique
keys: the first occurrence of `k` is replaced in place, a new key is
appended. -/
def dictInsert : List (String × α) → String → α → List (String × α)
  | [], k, v => [(k, v)]
  | (k2, v2) :: rest, k, v =>
    if k2 = k then (k, v) :: rest else (k2, v2) :: dictInsert rest k v

/-- The per-frame map `per` of `_sprite_symbol` (`bbone_to_xfl.py`
lines 133–141): for each child, normalize the name, skip empty results,
apply the alias map, and assign `per[n] = ch` (so a later occurrence
overwrites an earlier one). -/
def frameMap (aliases : List (String × String)) (children : List ChildRec) :
    List (String × ChildRec) :=
  children.foldl
    (fun per ch =>
      let n := norm_name ch.name
      if n = "" then per
      else dictInsert per (aliasGet aliases n) ch)
    []

/-- The per-frame slot assignment of `main` (`bbone_to_xfl_symbols.py`
lines 437–441) restricted to one frame index: each flat record whose
sanitized name has a layer overwrites the slot for that name. -/
def assignSlots (keys : List String) (entries : List FlatInst) :
    List (String × FlatInst) :=
  entries.foldl
    (fun m e =>
      if sanitize e.name ∈ keys then dictInsert m (sanitize e.name) e else m)
    []

/-- `max(0, int(v) - 1)`: the conversion of a 1-based label frame number to
a 0-based span start (`bbone_to_xfl.py` line 157). -/
def labelStart (v : ℤ) : ℕ := (max 0 (v - 1)).toNat

/-- `sorted({max(0, int(v) - 1) for v in labels.values()})`
(`bbone_to_xfl.py` line 157): the distinct 0-based label starts in
ascending order. -/
def labelStarts (labels : List (String × ℤ)) : List ℕ :=
  ((labels.map fun kv => labelStart kv.2).dedup).insertionSort (· ≤ ·)

/-- The span-start list of `_sprite_symbol` (`bbone_to_xfl.py`
lines 157–160): force frame 0 as a span start when no label claims it,
then append the sentinel `total`. -/
def spanStarts (labels : List (String × ℤ)) (total : ℕ) : List ℕ :=
  let starts := labelStarts labels
  (if starts = [] ∨ starts.head? ≠ some 0 then 0 :: starts else starts) ++ [total]

/-- One emitted label span: `DOMFrame` with `index`, `duration` and an
optional `name` (`bbone_to_xfl.py` lines 161–167). -/
structure Span where
  start : ℕ
  duration : ℕ
  name : Option String
deriving DecidableEq

/-- `next((lbl for lbl, v in labels.items() if max(0, int(v)-1) == s), None)`
(`bbone_to_xfl.py` line 164). -/
def nameAt (labels : List (String × ℤ)) (s : ℕ) : Option String :=
  (labels.find? fun kv => labelStart kv.2 == s).map fun kv => kv.1

/-- Consecutive pairs of a list: the `starts[i], starts[i+1]` pairs of the
span loop. -/
def consecPairs (xs : List ℕ) : List (ℕ × ℕ) := xs.zip xs.tail

/-- One span of the loop body (`bbone_to_xfl.py` lines 162–167):
`dur = max(1, e - s)`, named when a label maps exactly to `s`. -/
def spanOf (labels : List (String × ℤ)) (p : ℕ × ℕ) : Span :=
  ⟨p.1, max 1 (p.2 - p.1), nameAt labels p.1⟩

/-- The label layer of `_sprite_symbol` (`bbone_to_xfl.py` lines 154–167):
emitted only when the label table is non-empty (`if labels:`), with
`total = max(1, len(frames))` (line 127) as the sentinel end. -/
def labelSpans (labels : List (String × ℤ)) (nFrames : ℕ) : List Span :=
  if labels = [] then []
  else (consecPairs (spanStarts labels (max 1 nFrames))).map (spanOf labels)

/-- `idx.setdefault(k, v)` (`bbone_to_xfl_symbols.py` line 126): keep the
existing binding when the key is present, append otherwise. -/
def setdefault : List (String × String) → String → String → List (String × String)
  | [], k, v => [(k, v)]
  | (k2, v2) :: rest, k, v =>
    if k2 = k then (k2, v2) :: rest else (k2, v2) :: setdefault rest k v

/-- The variant-key set `{s, s.lower(), s.replace(".","_"),
s.replace("_","."), s.lower().replace(".","_")}` of one PNG stem
(`bbone_to_xfl_symbols.py` line 125).  All variants of one file map to the
same path, so the (hash-dependent) iteration order of the Python set
literal does not affect any lookup result; a fixed order is used here. -/
def variants (s : String) : List String :=
  ([s, pyLower s, chReplace '.' '_' s, chReplace '_' '.' s,
    chReplace '.' '_' (pyLower s)]).dedup

/-- `build_png_index` (`bbone_to_xfl_symbols.py` lines 120–127) over the
list of PNG stems (a file is identified by its stem): `setdefault` each
variant key of each file, in file order. -/
def build_png_index (files : List String) : List (String × String) :=
  files.foldl (fun idx s => (variants s).foldl (fun idx2 k => setdefault idx2 k s) idx) []

/-- `find_png_for_name(name, idx)` (`bbone_to_xfl_symbols.py`
lines 129–138): exact key, dot-to-underscore key, lowercased key, then the
first indexed entry related to the lowercased name by substring containment
(in either direction, case-insensitively on the key). -/
def find_png_for_name (name : String) (idx : List (String × String)) : Option String :=
  match List.lookup name idx with
  | some p => some p
  | none =>
    match List.lookup (chReplace '.' '_' name) idx with
    | some p => some p
    | none =>
      match List.lookup (pyLower name) idx with
      | some p => some p
      | none =>
        (idx.find? fun kv =>
          hasSubstr (pyLower kv.1) (pyLower name) ||
            hasSubstr (pyLower name) (pyLower kv.1)).map
          fun kv => kv.2


/-- The `name_to_image` construction of `main` (`bbone_to_xfl_symbols.py`
lines 401–409): for each collected name (in sorted order), look up a PNG;
names with no PNG are skipped (`if not png: continue`), matched names are
bound to the image symbol `image/<stem>`. -/
def name_to_image (names : List String) (idx : List (String × String)) :
    List (String × String) :=
  names.foldl
    (fun m n =>
      match find_png_for_name n idx with
      | none => m
      | some p => dictInsert m n ("image/" ++ p))
    []

/-- The layer-key set of `main` (`bbone_to_xfl_symbols.py` line 435),
one key per `name_to_image` entry, sanitized. -/
def layerKeysOf (n2i : List (String × String)) : List String :=
  n2i.map fun kv => sanitize kv.1

/-- The empty-timeline check of `main` (`bbone_to_xfl_symbols.py`
lines 343–344): `if not frames:` print an error and `sys.exit(3)`,
modelled as an error result. -/
def mainFramesCheck (frames : List Frame) : Except String Unit :=
  if frames.isEmpty then .error "ERROR: no frames in JSON" else .ok ()

/-- Which sprite builder `convert_bbone_to_xfl` runs. -/
inductive ConvertSprite : Type where
  | identitySprite
  | frameSprite
deriving DecidableEq

/-- The sprite selection of `convert_bbone_to_xfl` (`bbone_to_xfl.py`
lines 397–408): with zero frames (or the `--identity-sprite` flag) the
function writes the one-frame identity sprite of `_sprite_identity` and
returns normally; there is no error path for an empty timeline. -/
def convertSpriteChoice (identity_sprite : Bool) (frames : List CFrame) :
    Except String ConvertSprite :=
  .ok (if identity_sprite || frames.length == 0 then .identitySprite else .frameSprite)

/-- A matrix dict with all six numeric fields present. -/
def mdict (a b c d tx ty : ℚ) : List (String × JVal) :=
  [("a", .num a), ("b", .num b), ("c", .num c),
   ("d", .num d), ("tx", .num tx), ("ty", .num ty)]

/-- A piece-catalog record with all four numeric fields present. -/
def pdict (ox oy sx sy : ℚ) : List (String × JVal) :=
  [("origin_x", .num ox), ("origin_y", .num oy),
   ("scale_x", .num sx), ("scale_y", .num sy)]

/-- Concrete input: the single child of shared frame `A` of the spec's
"blink" scenario. -/
def nodeA : Node := .mk "A0" [] [] [] none

/-- Concrete input: the single child of shared frame `B` of the spec's
"blink" scenario. -/
def nodeB : Node := .mk "B0" [] [] [] none

/-- Concrete input: a shared-animation table with a length-2 entry
`"blink" := [A, B]`. -/
def blinkShared : Shared := [("blink", [⟨[nodeA]⟩, ⟨[nodeB]⟩])]

/-- Concrete input: a node referencing the shared animation `"blink"`. -/
def blinkNode : Node := .mk "blinker" [] [] [] (some "blink")

/-- Concrete input: a frame whose two root nodes carry the same name. -/
def dupFrame : Frame :=
  ⟨[Node.mk "x" [] [] [] none, Node.mk "x" [] [] [] none]⟩

/-- The last element of a list satisfying `p`, if any: the element whose
dict assignment survives a left-to-right overwrite loop. -/
def lastMatch {β : Type} (p : β → Bool) : List β → Option β
  | [] => none
  | x :: xs =>
    match lastMatch p xs with
    | some y => some y
    | none => if p x then some x else none

/-! ## Helper lemmas -/

theorem lookup_cons_self {α : Type} (k : String) (v : α) (tl : List (String × α)) :
    List.lookup k ((k, v) :: tl) = some v := by
  simp [List.lookup]

theorem lookup_cons_ne {α : Type} (k2 k3 : String) (v3 : α) (tl : List (String × α))
    (h : k2 ≠ k3) : List.lookup k2 ((k3, v3) :: tl) = List.lookup k2 tl := by
  simp [List.lookup, beq_false_of_ne h]

theorem lookup_dictInsert {α : Type} (m : List (String × α)) (k k2 : String) (v : α) :
    List.lookup k2 (dictInsert m k v) = if k2 = k then some v else List.lookup k2 m := by
  induction m with
  | nil =>
    by_cases h : k2 = k <;> simp [dictInsert, List.lookup, h, beq_false_of_ne]
  | cons hd tl ih =>
    obtain ⟨k3, v3⟩ := hd
    by_cases h3 : k3 = k <;> by_cases h2 : k2 = k3 <;>
      simp_all [dictInsert, List.lookup, beq_iff_eq] <;>
      simp_all [beq_false_of_ne h2]

theorem mem_dictInsert {α : Type} (m : List (String × α)) (k : String) (v : α)
    (kv : String × α) (h : kv ∈ dictInsert m k v) : kv = (k, v) ∨ kv ∈ m := by
  induction m with
  | nil => simpa [dictInsert] using h
  | cons hd tl ih =>
    obtain ⟨k3, v3⟩ := hd
    by_cases h3 : k3 = k
    · subst h3
      rcases (by simpa [dictInsert] using h : kv = (k3, v) ∨ kv ∈ tl) with h4 | h4
      · exact Or.inl h4
      · exact Or.inr (List.mem_cons_of_mem _ h4)
    · rcases (by simpa [dictInsert, h3] using h : kv = (k3, v3) ∨ kv ∈ dictInsert tl k v)
        with h4 | h4
      · exact Or.inr (by simp [h4])
      · rcases ih h4 with h5 | h5
        · exact Or.inl h5
        · exact Or.inr (List.mem_cons_of_mem _ h5)

theorem lastMatch_eq_getLast {β : Type} (p : β → Bool) :
    ∀ xs : List β, lastMatch p xs = (xs.filter p).getLast? := by
  intro xs
  induction xs with
  | nil => rfl
  | cons x xs ih =>
    show (match lastMatch p xs with
      | some y => some y
      | none => if p x then some x else none) = _
    rw [ih, List.filter_cons]
    cases hp : p x <;> cases hg : (xs.filter p).getLast? <;>
      simp [hp, hg, List.getLast?_cons]

theorem lookup_foldl_keyed {β : Type} (keyOf : β → Option String) (xs : List β) :
    ∀ (init : List (String × β)) (k : String),
      List.lookup k
        (xs.foldl (fun m x =>
          match keyOf x with
          | some k2 => dictInsert m k2 x
          | none => m) init) =
      match lastMatch (fun x => keyOf x == some k) xs with
      | some x => some x
      | none => List.lookup k init := by
  induction xs with
  | nil => intro init k; rfl
  | cons x xs ih =>
    intro init k
    rw [List.foldl_cons, ih]
    show _ = (match (match lastMatch (fun y => keyOf y == some k) xs with
      | some y => some y
      | none => if (keyOf x == some k) then some x else none) with
      | some z => some z
      | none => List.lookup k init)
    cases hm : lastMatch (fun y => keyOf y == some k) xs with
    | some y => rfl
    | none =>
      cases hk : keyOf x with
      | none => simp [hk]
      | some k2 =>
        by_cases he : k2 = k
        · subst he
          simp [hk, lookup_dictInsert]
        · have hkk : ¬ k = k2 := fun h2 => he h2.symm
          simp [hk, beq_iff_eq, he, lookup_dictInsert, hkk]

/-! ## C1 — world-transform and world-alpha accumulation of the flattener -/

/-- C1 (amended): at every outer frame and every visited node, the
flattener composes the world matrix as `Parent ∘ Local` with exactly the
six claimed component formulas, composes world alpha as
`parentAlpha * alphaMultiplier`, and starts each root node of a frame from
the identity matrix and alpha `1.0`; however a flat record is emitted for
`every` visited node — the name may be empty — with the non-empty-name
filtering applied only downstream when layer slots are assigned. -/
theorem c1_flattener_world_composition :
    (∀ p l : Mat, mul p l =
      ⟨p.a * l.a + p.c * l.b, p.b * l.a + p.d * l.b,
       p.a * l.c + p.c * l.d, p.b * l.c + p.d * l.d,
       p.a * l.tx + p.c * l.ty + p.tx, p.b * l.tx + p.d * l.ty + p.ty⟩)
    ∧ (∀ (shared : Shared) (fuel : ℕ) (bone : Node) (pw : Mat) (pa : ℚ) (fi : ℕ),
        compose_list shared (fuel + 1) bone pw pa fi =
          ⟨bone.name, mul pw (localMat bone), pa * alphaMult bone⟩ ::
            ((effChildren shared bone fi).map fun ch =>
              compose_list shared fuel ch (mul pw (localMat bone))
                (alphaMult bone * pa) fi).flatten)
    ∧ (∀ (shared : Shared) (fuel : ℕ) (fr : Frame) (fi : ℕ),
        flattenFrame shared fuel fr fi =
          (fr.children.map fun b =>
            compose_list shared fuel b ⟨1, 0, 0, 1, 0, 0⟩ 1 fi).flatten) := by
  refine ⟨fun p l => rfl, fun shared fuel bone pw pa fi => ?_, fun shared fuel fr fi => rfl⟩
  show (⟨bone.name, mul pw (localMat bone), alphaMult bone * pa⟩ : FlatInst) :: _ = _
  rw [mul_comm (alphaMult bone) pa]

/-- C1 counterexample: a flat record is emitted even for a node whose name
is empty (the record list of a single unnamed grouping node is non-empty
and its only record carries the empty name), refuting "a flat instance is
emitted exactly for the nodes whose name is non-empty". -/
theorem c1_counterexample :
    ∃ e ∈ compose_list [] 1 (Node.mk "" [] [] [] none) matId 1 0, e.name = "" := by
  decide

/-! ## C2 — empty-timeline handling -/

/-- C2 counterexample: `convert_bbone_to_xfl` on a timeline with zero
frames does not return an error result — it falls back to building the
one-frame identity sprite. -/
theorem c2_counterexample :
    convertSpriteChoice false [] = Except.ok ConvertSprite.identitySprite
    ∧ (convertSpriteChoice false []).isOk = true := by
  exact ⟨rfl, rfl⟩

/-- C2 (amended): the `bbone_to_xfl_symbols.py` entry point rejects a
zero-frame timeline with the explicit "no frames" error result (exit
code 3) and accepts every non-empty timeline; `convert_bbone_to_xfl` in
`bbone_to_xfl.py` never errors on zero frames — it selects the one-frame
identity-sprite builder instead of the frame-by-frame sprite builder. -/
theorem c2_empty_timeline_amended :
    (∀ frames : List Frame,
      mainFramesCheck frames = .error "ERROR: no frames in JSON" ↔ frames = [])
    ∧ (∀ frames : List Frame, frames ≠ [] → mainFramesCheck frames = .ok ())
    ∧ (∀ (b : Bool) (fs : List CFrame),
        convertSpriteChoice b fs =
          .ok (if b || fs.length == 0 then .identitySprite else .frameSprite)) := by
  refine ⟨fun frames => ?_, fun frames h => ?_, fun b fs => rfl⟩
  · cases frames <;> simp [mainFramesCheck]
  · cases frames with
    | nil => exact absurd rfl h
    | cons f fs => rfl

/-- C2 witness: the amended theorem applied to a concrete one-frame
timeline. -/
theorem c2_empty_timeline_amended_witness :
    mainFramesCheck [⟨[]⟩] = .ok () := by
  exact c2_empty_timeline_amended.2.1 [⟨[]⟩] (by simp)

/-! ## C3 — shared-animation substitution -/

/-- C3: for a node carrying a (non-empty, hence truthy) shared-animation
reference whose table entry is a non-empty list, the effective children at
outer frame `fi` are `entry[fi mod length(entry)].children`; an absent or
empty entry falls back to the node's own children with no error; the
node's own local matrix and alpha multiplier still apply above the
substituted children (they form the head record, and the children are
composed under the node's world state); and in the length-2 "blink"
scenario even outer frames select entry `A`, odd frames entry `B`. -/
theorem c3_shared_substitution :
    (∀ (shared : Shared) (bone : Node) (r : String) (fi : ℕ) (sa : List Frame),
      bone.sharedRef = some r → r ≠ "" → List.lookup r shared = some sa → sa ≠ [] →
      effChildren shared bone fi = (sa.getD (fi % sa.length) ⟨[]⟩).children)
    ∧ (∀ (shared : Shared) (bone : Node) (r : String) (fi : ℕ),
        bone.sharedRef = some r → List.lookup r shared = none →
        effChildren shared bone fi = bone.children)
    ∧ (∀ (shared : Shared) (bone : Node) (r : String) (fi : ℕ),
        bone.sharedRef = some r → List.lookup r shared = some [] →
        effChildren shared bone fi = bone.children)
    ∧ (∀ (shared : Shared) (fuel : ℕ) (bone : Node) (pw : Mat) (pa : ℚ) (fi : ℕ),
        compose_list shared (fuel + 1) bone pw pa fi =
          ⟨bone.name, mul pw (localMat bone), alphaMult bone * pa⟩ ::
            ((effChildren shared bone fi).map fun ch =>
              compose_list shared fuel ch (mul pw (localMat bone))
                (alphaMult bone * pa) fi).flatten)
    ∧ (∀ fi : ℕ, effChildren blinkShared blinkNode fi =
        if fi % 2 = 0 then [nodeA] else [nodeB]) := by
  refine ⟨?_, ?_, ?_, fun shared fuel bone pw pa fi => rfl, ?_⟩
  · intro shared bone r fi sa h1 h2 h3 h4
    simp [effChildren, h1, h2, h3, List.isEmpty_iff, h4]
  · intro shared bone r fi h1 h2
    by_cases h3 : r = "" <;> simp [effChildren, h1, h2, h3]
  · intro shared bone r fi h1 h2
    by_cases h3 : r = "" <;> simp [effChildren, h1, h2, h3]
  · intro fi
    rcases Nat.mod_two_eq_zero_or_one fi with h | h <;>
      simp [effChildren, blinkNode, blinkShared, Node.sharedRef, Node.children,
        List.lookup, h]

/-- C3 witness: the substitution conjunct applied to the concrete "blink"
table at outer frame 3 selects entry `B`. -/
theorem c3_shared_substitution_witness :
    effChildren blinkShared blinkNode 3 = [nodeB] := by
  have h := c3_shared_substitution.1 blinkShared blinkNode "blink" 3
    [⟨[nodeA]⟩, ⟨[nodeB]⟩] rfl (by decide) rfl (List.cons_ne_nil _ _)
  rw [h]
  rfl

/-! ## C6 — origin/scale composition and the global scale -/

/-- C6: for an emitted instance of a catalogued piece the final matrix is
`frameLocalMatrix ∘ Translate(ox, oy) ∘ Scale(sx, sy)` with the claimed
component formulas; origin defaults to `0` and scale to `1` when the
catalog entry is absent; and a configured global scale `g` multiplies all
six components uniformly, once, after the origin/scale composition (the
final matrix is literally `applyGlobalScale` of the composed matrix). -/
theorem c6_instance_matrix :
    (∀ a b c d tx ty ox oy sx sy g : ℚ,
      ∀ (plist : List (String × List (String × JVal))) (nm : String),
      List.lookup nm plist = some (pdict ox oy sx sy) →
      instanceMatrix (mdict a b c d tx ty) plist nm g =
        ⟨a * sx * g, b * sx * g, c * sy * g, d * sy * g,
         (a * ox + c * oy + tx) * g, (b * ox + d * oy + ty) * g⟩)
    ∧ (∀ a b c d tx ty g : ℚ,
        ∀ (plist : List (String × List (String × JVal))) (nm : String),
        List.lookup nm plist = none →
        instanceMatrix (mdict a b c d tx ty) plist nm g =
          ⟨a * g, b * g, c * g, d * g, tx * g, ty * g⟩)
    ∧ (∀ (fm : List (String × JVal)) (plist : List (String × List (String × JVal)))
        (nm : String) (g : ℚ),
        instanceMatrix fm plist nm g =
          applyGlobalScale (compose_instance_matrix fm (pinfoFor plist nm)) g) := by
  refine ⟨?_, ?_, fun fm plist nm g => rfl⟩
  · intro a b c d tx ty ox oy sx sy g plist nm h
    unfold instanceMatrix pinfoFor
    rw [h]
    show applyGlobalScale
      ⟨a * sx, b * sx, c * sy, d * sy, a * ox + c * oy + tx, b * ox + d * oy + ty⟩ g = _
    unfold applyGlobalScale
    by_cases hg : g = 1
    · subst hg; simp
    · rw [if_pos hg]
  · intro a b c d tx ty g plist nm h
    unfold instanceMatrix pinfoFor
    rw [h]
    show applyGlobalScale
      ⟨a * 1, b * 1, c * 1, d * 1, a * 0 + c * 0 + tx, b * 0 + d * 0 + ty⟩ g = _
    unfold applyGlobalScale
    by_cases hg : g = 1
    · subst hg
      simp
    · rw [if_pos hg]
      simp only [Mat.mk.injEq]
      refine ⟨by ring, by ring, by ring, by ring, by ring, by ring⟩

/-- C6 witness: the spec's scenario — local matrix `{1,0,0,1,5,10}`,
origin `(0,0)`, scale `(1,1)`, global scale `0.5` — gives the final matrix
`{0.5, 0, 0, 0.5, 2.5, 5}`. -/
theorem c6_instance_matrix_witness :
    instanceMatrix (mdict 1 0 0 1 5 10) [("eye", pdict 0 0 1 1)] "eye" (1/2) =
      ⟨1/2, 0, 0, 1/2, 5/2, 5⟩ := by
  have h := c6_instance_matrix.1 1 0 0 1 5 10 0 0 1 1 (1/2)
    [("eye", pdict 0 0 1 1)] "eye" rfl
  rw [h]
  norm_num

/-! ## C9 — defaulting of missing and malformed numeric fields -/

/-- C9 counterexample: a malformed `a` field does not default to the
identity value — `compose_instance_matrix` coerces it to `_float`'s
fallback `0.0` (so the component is `0`, not `1`), and the flattener's
extraction (`compose_list`, raw `float(...)`) raises instead of
defaulting. -/
theorem c9_counterexample :
    (compose_instance_matrix [("a", JVal.bad)] []).a = 0
    ∧ ¬ (compose_instance_matrix [("a", JVal.bad)] []).a = 1
    ∧ localMatrixE [("a", JVal.bad)] = Except.error "ValueError" := by
  refine ⟨by simp [compose_instance_matrix, _float, pyFloatE, List.lookup],
    by norm_num [compose_instance_matrix, _float, pyFloatE, List.lookup],
    by rfl⟩

/-- C9 (amended): a `missing` matrix or color field defaults
component-wise to the identity values / alpha `1.0` in both scripts and
causes no failure; a `malformed` field, however, is coerced by `_float` to
its fallback `0.0` in the converter's `compose_instance_matrix` (not to
the identity component), and raises an error in the symbols flattener,
which calls `float()` without a guard. -/
theorem c9_numeric_defaults_amended :
    compose_instance_matrix [] [] = matId
    ∧ localMatrixE [] = .ok matId
    ∧ alphaME [] = .ok 1
    ∧ (∀ M : List (String × JVal), List.lookup "a" M = some .bad →
        (compose_instance_matrix M []).a = 0
        ∧ localMatrixE M = .error "ValueError") := by
  refine ⟨by simp [compose_instance_matrix, _float, pyFloatE, List.lookup, matId],
    by rfl, by rfl, ?_⟩
  intro M h
  constructor
  · simp [compose_instance_matrix, h, _float, pyFloatE, List.lookup]
  · simp [localMatrixE, h, pyFloatE, Except.bind, Bind.bind]

/-- C9 witness: the amended theorem's malformed-field conjunct applied to
a concrete matrix dict whose `a` field is malformed. -/
theorem c9_numeric_defaults_amended_witness :
    (compose_instance_matrix [("b", JVal.num 2), ("a", JVal.bad)] []).a = 0
    ∧ localMatrixE [("b", JVal.num 2), ("a", JVal.bad)] = .error "ValueError" := by
  exact c9_numeric_defaults_amended.2.2.2 [("b", JVal.num 2), ("a", JVal.bad)] rfl

/-! ## C7 — last occurrence wins in the keyframe track slots -/

theorem foldl_ext {α β : Type} (f g : α → β → α) (h : ∀ a b, f a b = g a b) :
    ∀ (l : List β) (init : α), l.foldl f init = l.foldl g init := by
  intro l
  induction l with
  | nil => intro init; rfl
  | cons x xs ih => intro init; rw [List.foldl_cons, List.foldl_cons, h, ih]

/-- C7: when the same resolved piece name occurs several times within one
frame, the per-frame slot holds exactly the `last` occurrence in traversal
order — in the converter's per-frame map (`per[n] = ch` over the frame's
children) and in the symbols script's per-frame layer-slot assignment
(`layer_frames[key][fi] = entry` over the flattened records). -/
theorem c7_last_occurrence_wins :
    (∀ (al : List (String × String)) (chs : List ChildRec) (n : String),
      List.lookup n (frameMap al chs) =
        (chs.filter fun ch =>
          decide (norm_name ch.name ≠ "") &&
            decide (aliasGet al (norm_name ch.name) = n)).getLast?)
    ∧ (∀ (keys : List String) (es : List FlatInst) (k : String), k ∈ keys →
        List.lookup k (assignSlots keys es) =
          (es.filter fun e => decide (sanitize e.name = k)).getLast?) := by
  constructor
  · intro al chs n
    have hstep : frameMap al chs =
        chs.foldl (fun m x =>
          match (if norm_name x.name = "" then none
                 else some (aliasGet al (norm_name x.name)) : Option String) with
          | some k2 => dictInsert m k2 x
          | none => m) [] := by
      unfold frameMap
      apply foldl_ext
      intro m ch
      by_cases h : norm_name ch.name = "" <;> simp [h]
    rw [hstep, lookup_foldl_keyed, lastMatch_eq_getLast]
    have hpred : (chs.filter fun x =>
        ((if norm_name x.name = "" then none
          else some (aliasGet al (norm_name x.name)) : Option String) == some n)) =
        chs.filter fun ch =>
          decide (norm_name ch.name ≠ "") && decide (aliasGet al (norm_name ch.name) = n) := by
      apply List.filter_congr
      intro x hx
      by_cases h : norm_name x.name = ""
      · simp [h]
      · by_cases h2 : aliasGet al (norm_name x.name) = n <;> simp [h, h2]
    rw [hpred]
    cases hL : (chs.filter fun ch =>
        decide (norm_name ch.name ≠ "") &&
          decide (aliasGet al (norm_name ch.name) = n)).getLast? <;> simp [hL]
  · intro keys es k hk
    have hstep : assignSlots keys es =
        es.foldl (fun m e =>
          match (if sanitize e.name ∈ keys then some (sanitize e.name)
                 else none : Option String) with
          | some k2 => dictInsert m k2 e
          | none => m) [] := by
      unfold assignSlots
      apply foldl_ext
      intro m e
      by_cases h : sanitize e.name ∈ keys <;> simp [h]
    rw [hstep, lookup_foldl_keyed, lastMatch_eq_getLast]
    have hpred : (es.filter fun e =>
        ((if sanitize e.name ∈ keys then some (sanitize e.name)
          else none : Option String) == some k)) =
        es.filter fun e => decide (sanitize e.name = k) := by
      apply List.filter_congr
      intro e he
      by_cases h : sanitize e.name ∈ keys
      · by_cases h2 : sanitize e.name = k <;> simp [h, h2, hk]
      · have h2 : ¬ sanitize e.name = k := fun he2 => h (he2 ▸ hk)
        simp [h, h2]
    rw [hpred]
    cases hL : (es.filter fun e => decide (sanitize e.name = k)).getLast? <;> simp [hL]

/-- C7 witness: for a concrete frame containing the piece name `"x"` twice
(with different translations), the slot holds the second occurrence. -/
theorem c7_last_occurrence_wins_witness :
    List.lookup "x" (frameMap [] [⟨"x", [("tx", JVal.num 1)]⟩, ⟨"x", [("tx", JVal.num 2)]⟩]) =
      some ⟨"x", [("tx", JVal.num 2)]⟩
    ∧ List.lookup "x" (assignSlots ["x"] [⟨"x", matId, 1⟩, ⟨"x", matId, 2⟩]) =
      some ⟨"x", matId, 2⟩ := by
  constructor
  · rw [c7_last_occurrence_wins.1 [] [⟨"x", [("tx", JVal.num 1)]⟩, ⟨"x", [("tx", JVal.num 2)]⟩] "x"]
    decide
  · rw [c7_last_occurrence_wins.2 ["x"] [⟨"x", matId, 1⟩, ⟨"x", matId, 2⟩] "x"
      (by simp)]
    decide

/-! ## C10 — substring fallback of name-to-bitmap resolution -/

theorem lookup_name_to_image_aux (idx : List (String × String)) (names : List String) :
    ∀ (init : List (String × String)) (n : String),
      ((List.lookup n (names.foldl (fun m x =>
        match find_png_for_name x idx with
        | none => m
        | some p => dictInsert m x ("image/" ++ p)) init)).isSome = true) ↔
      ((n ∈ names ∧ (find_png_for_name n idx).isSome = true)
        ∨ (List.lookup n init).isSome = true) := by
  induction names with
  | nil => intro init n; simp
  | cons x xs ih =>
    intro init n
    rw [List.foldl_cons, ih]
    cases hf : find_png_for_name x idx with
    | none =>
      by_cases hn : n = x
      · subst hn; simp [hf]
      · simp [hn]
    | some p =>
      by_cases hn : n = x
      · subst hn; simp [hf, lookup_dictInsert]
      · simp [hn, lookup_dictInsert]

theorem mem_name_to_image_aux (idx : List (String × String)) (names : List String) :
    ∀ (init : List (String × String)) (kv : String × String),
      kv ∈ names.foldl (fun m x =>
        match find_png_for_name x idx with
        | none => m
        | some p => dictInsert m x ("image/" ++ p)) init →
      kv ∈ init ∨ (kv.1 ∈ names ∧ (find_png_for_name kv.1 idx).isSome = true) := by
  induction names with
  | nil => intro init kv h; exact Or.inl h
  | cons x xs ih =>
    intro init kv h
    rw [List.foldl_cons] at h
    rcases ih _ kv h with h2 | h2
    · cases hf : find_png_for_name x idx with
      | none =>
        rw [hf] at h2
        exact Or.inl h2
      | some p =>
        rw [hf] at h2
        rcases mem_dictInsert _ _ _ _ h2 with h3 | h3
        · refine Or.inr ⟨by simp [h3], ?_⟩
          rw [show kv.1 = x from by simp [h3], hf]
          rfl
        · exact Or.inl h3
    · exact Or.inr ⟨List.mem_cons_of_mem _ h2.1, h2.2⟩

/-- C10: when a piece name has no exact, dot/underscore-swapped or
lowercased key match, resolution falls back to the first indexed entry
related to the lowercased name by substring containment in either
direction; concretely the two distinct names `"head"` and `"light"` both
resolve to the single exported bitmap `"headlight"`; and a piece is bound
to an image symbol (and hence gets a timeline layer key) exactly when this
procedure finds some PNG for it. -/
theorem c10_png_fallback :
    (∀ (name : String) (idx : List (String × String)),
      List.lookup name idx = none →
      List.lookup (chReplace '.' '_' name) idx = none →
      List.lookup (pyLower name) idx = none →
      find_png_for_name name idx =
        (idx.find? fun kv =>
          hasSubstr (pyLower kv.1) (pyLower name) ||
            hasSubstr (pyLower name) (pyLower kv.1)).map fun kv => kv.2)
    ∧ (find_png_for_name "head" (build_png_index ["headlight"]) = some "headlight"
        ∧ find_png_for_name "light" (build_png_index ["headlight"]) = some "headlight"
        ∧ "head" ≠ "light")
    ∧ (∀ (names : List String) (idx : List (String × String)) (n : String),
        (List.lookup n (name_to_image names idx)).isSome = true ↔
          (n ∈ names ∧ (find_png_for_name n idx).isSome = true))
    ∧ (∀ (names : List String) (idx : List (String × String)) (k : String),
        k ∈ layerKeysOf (name_to_image names idx) →
        ∃ n ∈ names, (find_png_for_name n idx).isSome = true ∧ sanitize n = k) := by
  refine ⟨?_, by refine ⟨by decide, by decide, by decide⟩, ?_, ?_⟩
  · intro name idx h1 h2 h3
    simp [find_png_for_name, h1, h2, h3]
  · intro names idx n
    have h := lookup_name_to_image_aux idx names [] n
    simpa [name_to_image] using h
  · intro names idx k hk
    rcases List.mem_map.mp hk with ⟨kv, hkv, hsan⟩
    rcases mem_name_to_image_aux idx names [] kv hkv with h2 | h2
    · simp at h2
    · exact ⟨kv.1, h2.1, h2.2, hsan⟩

/-- C10 witness: the fallback conjunct applied to the concrete index of a
single stem "button.png"-style piece: the name `"but"` is not a key, so
the substring fallback returns the sole entry. -/
theorem c10_png_fallback_witness :
    find_png_for_name "but" (build_png_index ["button"]) = some "button" := by
  rw [c10_png_fallback.1 "but" (build_png_index ["button"]) (by decide) (by decide)
    (by decide)]
  decide

/-! ## C8 — name normalization and aliasing -/

theorem afterLastChar_append (sep : Char) (xs : List Char) (a : Char) :
    afterLastChar sep (xs ++ [a]) =
      if a = sep then [] else (afterLastChar sep xs).concat a := by
  simp [afterLastChar, List.foldl_append]

theorem afterLastPathSep_append (xs : List Char) (a : Char) :
    afterLastPathSep (xs ++ [a]) =
      if a = '/' ∨ a = '\\' then [] else (afterLastPathSep xs).concat a := by
  simp [afterLastPathSep, List.foldl_append]

theorem afterLast_compose (cs : List Char) :
    afterLastChar '\\' (afterLastChar '/' cs) = afterLastPathSep cs := by
  induction cs using List.reverseRecOn with
  | nil => rfl
  | append_singleton l a ih =>
    rw [afterLastChar_append, afterLastPathSep_append]
    by_cases h1 : a = '/'
    · subst h1
      rw [if_pos rfl, if_pos (Or.inl rfl)]
      rfl
    · rw [if_neg h1]
      by_cases h2 : a = '\\'
      · subst h2
        rw [if_pos (Or.inr rfl), List.concat_eq_append, afterLastChar_append,
          if_pos rfl]
      · rw [if_neg (by rintro (h | h) <;> [exact h1 h; exact h2 h]),
          List.concat_eq_append, afterLastChar_append, if_neg h2,
          ih, List.concat_eq_append]

/-- C8: name resolution applies the alias map only after normalization
(`resolveName` is alias lookup composed with `_norm_name`), and
`_norm_name`'s sequential strips — trim, last `/`-segment, then last
`\`-segment, then one case-insensitive trailing `.png` — equal the spec's
description "segment after the last `/` or `\` of the trimmed name, with
one trailing extension stripped".  Both functions are pure, so the result
depends only on the pair `(rawName, aliasMap)`. -/
theorem c8_name_normalization :
    (∀ (aliases : List (String × String)) (raw : String),
      resolveName aliases raw = aliasGet aliases (norm_name raw))
    ∧ (∀ raw : String, norm_name raw = normSpecName raw) := by
  refine ⟨fun al raw => rfl, fun raw => ?_⟩
  unfold norm_name normSpecName
  by_cases h : raw = ""
  · simp [h]
  · rw [if_neg h, if_neg h]
    show stripPngExt
        (String.mk (afterLastChar '\\' (afterLastChar '/' (pyStrip raw).data))) =
      stripPngExt (String.mk (afterLastPathSep (pyStrip raw).data))
    rw [afterLast_compose]

/-! ## C4 — draw-order resolution -/

/-- C4 counterexample: a frame-0 tree containing the name `"x"` twice
yields a final order in which `"x"` appears twice — duplicates are
retained, not first-occurrence-deduplicated, so a piece need not appear
exactly once. -/
theorem c4_counterexample :
    (bottomToTop (dfs_draw_order [] 1 [dupFrame]) ["x"]).count "x" = 2 := by
  decide

/-- C4 (amended): the order is derived from frame 0 only (later frames are
ignored by `dfs_draw_order`) by the same depth-first traversal as the
flattener, recording each encountered non-empty sanitized name at `every`
occurrence (duplicates retained, in visitation order); every layer key
never visited at frame 0 is appended exactly once after that order.
Consequently a layer key visited `k` times at frame 0 appears `max k 1`
times in the resulting order (so exactly once only when `k ≤ 1`), a
non-key name never appears, and the resolver is a pure function, hence
deterministic on identical input. -/
theorem c4_draw_order_amended :
    (∀ (shared : Shared) (fuel : ℕ) (f0 : Frame) (rest : List Frame),
      dfs_draw_order shared fuel (f0 :: rest) = dfs_draw_order shared fuel [f0])
    ∧ (∀ (dfs keys : List String), keys.Nodup → ∀ n : String,
        (bottomToTop dfs keys).count n =
          if n ∈ keys then max ((dfs.map sanitize).count n) 1 else 0) := by
  refine ⟨fun shared fuel f0 rest => rfl, ?_⟩
  intro dfs keys hnd n
  unfold bottomToTop
  rw [List.count_append]
  by_cases hk : n ∈ keys
  · rw [if_pos hk]
    have h1 : ((dfs.map sanitize).filter fun x => decide (x ∈ keys)).count n =
        (dfs.map sanitize).count n := List.count_filter (by simp [hk])
    rw [h1]
    by_cases hd : n ∈ dfs.map sanitize
    · have hc : 0 < (dfs.map sanitize).count n := List.count_pos_iff.mpr hd
      have h2 : (keys.filter fun x => decide (x ∉ dfs.map sanitize)).count n = 0 := by
        rw [List.count_eq_zero]
        intro hmem
        have h3 := (List.mem_filter.mp hmem).2
        exact (of_decide_eq_true h3) hd
      rw [h2, Nat.max_eq_left hc, Nat.add_zero]
    · have h2 : (keys.filter fun x => decide (x ∉ dfs.map sanitize)).count n =
          keys.count n := List.count_filter (by simp [hd])
      have hc : (dfs.map sanitize).count n = 0 := List.count_eq_zero.mpr hd
      rw [h2, List.count_eq_one_of_mem hnd hk, hc]
      rfl
  · rw [if_neg hk]
    have h1 : ((dfs.map sanitize).filter fun x => decide (x ∈ keys)).count n = 0 := by
      rw [List.count_eq_zero]
      intro hmem
      exact hk (by simpa using (List.mem_filter.mp hmem).2)
    have h2 : (keys.filter fun x => decide (x ∉ dfs.map sanitize)).count n = 0 := by
      rw [List.count_eq_zero]
      intro hmem
      exact hk (List.mem_filter.mp hmem).1
    rw [h1, h2]

/-- C4 witness: the count characterization applied to a concrete order and
key set — a key never visited at frame 0 appears exactly once. -/
theorem c4_draw_order_amended_witness :
    (bottomToTop ["a"] ["a", "b"]).count "b" = 1 := by
  have h := c4_draw_order_amended.2 ["a"] ["a", "b"] (by decide) "b"
  rw [h]
  decide

/-! ## C5 — label spans -/

theorem labelStarts_sorted (ls : List (String × ℤ)) :
    List.Sorted (· ≤ ·) (labelStarts ls) :=
  List.sorted_insertionSort _ _

theorem labelStarts_nodup (ls : List (String × ℤ)) : (labelStarts ls).Nodup :=
  ((List.perm_insertionSort _ _).nodup_iff).mpr (List.nodup_dedup _)

theorem labelStarts_pairwise_lt (ls : List (String × ℤ)) :
    List.Pairwise (· < ·) (labelStarts ls) :=
  ((labelStarts_sorted ls).and (labelStarts_nodup ls)).imp
    fun h => lt_of_le_of_ne h.1 h.2

theorem labelStarts_mem (ls : List (String × ℤ)) (x : ℕ) (h : x ∈ labelStarts ls) :
    ∃ kv ∈ ls, labelStart kv.2 = x := by
  have h2 : x ∈ (ls.map fun kv => labelStart kv.2).dedup :=
    ((List.perm_insertionSort _ _).mem_iff).mp h
  rcases List.mem_map.mp (List.mem_dedup.mp h2) with ⟨kv, hkv, he⟩
  exact ⟨kv, hkv, he⟩

theorem spanStarts_shape (ls : List (String × ℤ)) (total : ℕ) :
    ∃ ys, spanStarts ls total = 0 :: (ys ++ [total])
      ∧ (∀ x ∈ ys, x ∈ labelStarts ls)
      ∧ List.Pairwise (· < ·) (0 :: ys) := by
  unfold spanStarts
  show ∃ ys, ((if labelStarts ls = [] ∨ (labelStarts ls).head? ≠ some 0
      then 0 :: labelStarts ls else labelStarts ls) ++ [total]) = 0 :: (ys ++ [total])
    ∧ (∀ x ∈ ys, x ∈ labelStarts ls)
    ∧ List.Pairwise (· < ·) (0 :: ys)
  by_cases h : labelStarts ls = [] ∨ (labelStarts ls).head? ≠ some 0
  · rw [if_pos h]
    refine ⟨labelStarts ls, rfl, fun x hx => hx, ?_⟩
    rw [List.pairwise_cons]
    refine ⟨?_, labelStarts_pairwise_lt ls⟩
    intro b hb
    cases hls : labelStarts ls with
    | nil => rw [hls] at hb; simp at hb
    | cons a t =>
      have hsrt := labelStarts_sorted ls
      rw [hls] at hsrt hb
      have hane : a ≠ 0 := by
        rcases h with h | h
        · rw [hls] at h; simp at h
        · rw [hls] at h
          simp only [List.head?_cons, ne_eq, Option.some.injEq] at h
          exact h
      have hab : a ≤ b := by
        rcases List.mem_cons.mp hb with hb2 | hb2
        · exact hb2 ▸ le_refl a
        · exact (List.sorted_cons.mp hsrt).1 b hb2
      omega
  · rw [if_neg h]
    push_neg at h
    obtain ⟨h1, h2⟩ := h
    cases hls : labelStarts ls with
    | nil => exact absurd hls h1
    | cons a t =>
      rw [hls] at h2
      simp only [List.head?_cons, Option.some.injEq] at h2
      have hpw := labelStarts_pairwise_lt ls
      rw [hls, h2] at hpw
      refine ⟨t, by rw [h2]; simp, fun x hx => List.mem_cons_of_mem _ hx, hpw⟩

theorem chain_sum_spans : ∀ (xs : List ℕ), List.Chain' (· < ·) xs →
    ((consecPairs xs).map fun p => max 1 (p.2 - p.1)).sum + xs.headD 0 =
      xs.getLastD 0 := by
  intro xs
  induction xs with
  | nil => intro h; rfl
  | cons a rest ih =>
    intro h
    cases rest with
    | nil => simp [consecPairs]
    | cons b r =>
      have h1 : a < b := (List.chain'_cons.mp h).1
      have h2 : List.Chain' (· < ·) (b :: r) := (List.chain'_cons.mp h).2
      have h3 := ih h2
      have h4 : consecPairs (a :: b :: r) = (a, b) :: consecPairs (b :: r) := rfl
      rw [h4, List.map_cons, List.sum_cons]
      have h5 : max 1 (b - a) = b - a := Nat.max_eq_right (by omega)
      rw [h5, List.getLastD_cons]
      have h6 : (b :: r).getLastD a = (b :: r).getLastD 0 := by
        rw [List.getLastD_cons, List.getLastD_cons]
      rw [h6, ← h3]
      have h7 : (a :: b :: r).headD 0 = a := rfl
      have h8 : (b :: r).headD 0 = b := rfl
      rw [h7, h8]
      omega

theorem chain_spans_contiguous (ls : List (String × ℤ)) :
    ∀ (xs : List ℕ), List.Chain' (· < ·) xs →
      List.Chain' (fun s1 s2 => s2.start = s1.start + s1.duration)
        ((consecPairs xs).map (spanOf ls)) := by
  intro xs
  induction xs with
  | nil => intro h; simp [consecPairs]
  | cons a rest ih =>
    intro h
    cases rest with
    | nil => simp [consecPairs]
    | cons b r =>
      have h1 : a < b := (List.chain'_cons.mp h).1
      have h2 : List.Chain' (· < ·) (b :: r) := (List.chain'_cons.mp h).2
      have h3 := ih h2
      cases r with
      | nil => simp [consecPairs, spanOf]
      | cons c r2 =>
        show List.Chain' _ (spanOf ls (a, b) :: spanOf ls (b, c) ::
          (consecPairs (c :: r2)).map (spanOf ls))
        rw [List.chain'_cons]
        constructor
        · show b = a + max 1 (b - a)
          have hmax : max 1 (b - a) = b - a := Nat.max_eq_right (by omega)
          rw [hmax]
          omega
        · exact h3

theorem consecPairs_map_fst : ∀ xs : List ℕ, (consecPairs xs).map Prod.fst = xs.dropLast := by
  intro xs
  induction xs with
  | nil => rfl
  | cons a rest ih =>
    cases rest with
    | nil => rfl
    | cons b r =>
      show a :: (consecPairs (b :: r)).map Prod.fst = (a :: b :: r).dropLast
      rw [ih]
      rfl

/-- C5 counterexample: the claim fails as universally stated.  For the
label table `{"x": 3}` over a 1-frame timeline, the 0-based start `2` lies
beyond the sentinel `1`, the emitted spans have total duration `3 ≠ 1`, so
they do not partition `[0,1)`; and for an empty label table no spans are
emitted at all (the `if labels:` guard), so nothing covers `[0,N)`. -/
theorem c5_counterexample :
    ((labelSpans [("x", 3)] 1).map Span.duration).sum = 3
    ∧ labelSpans [] 5 = [] := by
  constructor
  · decide
  · rfl

/-- C5 (amended): for every `non-empty` label table whose 0-based label
frames all lie inside `[0,N)` (with `N ≥ 1`), the emitted spans partition
`[0,N)` exactly: the span starts are the distinct 0-based label frames
with `0` force-included, the first span starts at `0`, each following span
begins where the previous one ended, the durations sum to `N`, and a span
carries a name only if some label maps exactly to its start frame.
Out-of-range label frames or an empty table (no spans at all) violate the
partition, as the counterexample shows. -/
theorem c5_label_spans_amended :
    ∀ (ls : List (String × ℤ)) (N : ℕ), ls ≠ [] → 1 ≤ N →
      (∀ kv ∈ ls, labelStart kv.2 < N) →
      ((labelSpans ls N).map Span.start = (spanStarts ls N).dropLast
        ∧ (labelSpans ls N).head?.map Span.start = some 0
        ∧ List.Chain' (fun s1 s2 => s2.start = s1.start + s1.duration) (labelSpans ls N)
        ∧ ((labelSpans ls N).map Span.duration).sum = N
        ∧ (∀ sp ∈ labelSpans ls N, ∀ lbl, sp.name = some lbl →
            ∃ v, (lbl, v) ∈ ls ∧ labelStart v = sp.start)) := by
  intro ls N hls hN hrange
  have htot : max 1 N = N := Nat.max_eq_right hN
  have hspans : labelSpans ls N = (consecPairs (spanStarts ls N)).map (spanOf ls) := by
    unfold labelSpans
    rw [if_neg hls, htot]
  obtain ⟨ys, hys, hysmem, hpw0⟩ := spanStarts_shape ls N
  have hbound : ∀ x ∈ (0 : ℕ) :: ys, x < N := by
    intro x hx
    rcases List.mem_cons.mp hx with hx2 | hx2
    · omega
    · rcases labelStarts_mem ls x (hysmem x hx2) with ⟨kv, hkv, he⟩
      exact he ▸ hrange kv hkv
  have hpw : List.Pairwise (· < ·) (spanStarts ls N) := by
    rw [hys]
    show List.Pairwise (· < ·) ((0 :: ys) ++ [N])
    rw [List.pairwise_append]
    refine ⟨hpw0, List.pairwise_singleton _ _, ?_⟩
    intro a ha b hb
    rw [List.mem_singleton.mp hb]
    exact hbound a ha
  refine ⟨?_, ?_, ?_, ?_, ?_⟩
  · rw [hspans, List.map_map]
    have hcomp : (spanStarts ls N).dropLast =
        (consecPairs (spanStarts ls N)).map Prod.fst := (consecPairs_map_fst _).symm
    rw [hcomp]
    exact List.map_congr_left fun p hp => rfl
  · rw [hspans, hys]
    cases ys with
    | nil => rfl
    | cons y t => rfl
  · rw [hspans]
    exact chain_spans_contiguous ls _ hpw.chain'
  · rw [hspans, List.map_map]
    have hsum := chain_sum_spans (spanStarts ls N) hpw.chain'
    have hmap : (consecPairs (spanStarts ls N)).map (Span.duration ∘ spanOf ls) =
        (consecPairs (spanStarts ls N)).map fun p => max 1 (p.2 - p.1) :=
      List.map_congr_left fun p hp => rfl
    rw [hmap]
    have hhead : (spanStarts ls N).headD 0 = 0 := by rw [hys]; rfl
    have hlast : (spanStarts ls N).getLastD 0 = N := by
      rw [hys]
      show ((0 :: ys) ++ [N]).getLastD 0 = N
      rw [List.getLastD_concat]
    omega
  · intro sp hsp lbl hname
    rw [hspans] at hsp
    rcases List.mem_map.mp hsp with ⟨p, hp, hsp2⟩
    have hname2 : nameAt ls p.1 = some lbl := by
      rw [← hsp2] at hname
      exact hname
    rcases Option.map_eq_some'.mp hname2 with ⟨kv, hfind, hfst⟩
    have hpk : labelStart kv.2 = p.1 := by
      have h2 := List.find?_some hfind
      exact beq_iff_eq.mp h2
    refine ⟨kv.2, ?_, ?_⟩
    · have hmem := List.mem_of_find?_eq_some hfind
      rw [← hfst]
      exact hmem
    · rw [← hsp2]
      exact hpk

/-- C5 witness: the amended theorem applied to labels
`{"walk" ↦ 2, "idle" ↦ 7}` over `N = 10` frames — spans
`[0,1) ∪ [1,6) ∪ [6,10)` with durations summing to `10`. -/
theorem c5_label_spans_amended_witness :
    ((labelSpans [("walk", 2), ("idle", 7)] 10).map Span.duration).sum = 10 := by
  have h := c5_label_spans_amended [("walk", 2), ("idle", 7)] 10 (by decide)
    (by decide) (by decide)
  exact h.2.2.2.1

end BBoneXfl
